import Mathlib

/-!
Shallow embedding of the colle-content PDF pipeline (src/main.rs):
the exercise-number extraction, the page-merge engine built on a graft
map, and the fetch/parse/merge/save pipeline, together with theorems
settling the specified properties.
-/

namespace ColleContent

/-! ### Text extraction (`extract_exercise_numbers`)

A document's rendered text is modelled as pages, each a list of text
blocks, each a list of lines, each line the list of readable characters
(mupdf's `line.chars().filter_map(|c| c.char())` already decoded).
-/

/-- A line of rendered text: the decoded characters in order. -/
abbrev Line := List Char

/-- Rendered text of a document: pages, blocks within a page, lines within a block. -/
abbrev DocText := List (List (List Line))

/-- First index at which `pat` occurs as a contiguous sublist of `s`
(Rust `str::find` on the pattern). -/
def findSub (pat : List Char) : List Char → Option Nat
  | [] => if pat.isPrefixOf ([] : List Char) then some 0 else none
  | c :: rest =>
    if pat.isPrefixOf (c :: rest) then some 0
    else
      match findSub pat rest with
      | some k => some (k + 1)
      | none => none

/-- Decimal value of a digit string (a fold, as `from_str_radix` accumulates). -/
def digitsVal (ds : List Char) : Nat :=
  ds.foldl (fun a c => a * 10 + (c.toNat - 48)) 0

/-- Rust `str::parse::<i32>()`: optional sign, at least one decimal digit,
all characters digits, value within the signed 32-bit range; anything
else is a parse failure. -/
def parseI32core (sign : Int) (ds : List Char) : Option Int :=
  if ds = [] then none
  else if ds.all Char.isDigit then
    if -(2 ^ 31) ≤ sign * (digitsVal ds : Int) ∧ sign * (digitsVal ds : Int) < 2 ^ 31
    then some (sign * (digitsVal ds : Int)) else none
  else none

/-- Rust `str::parse::<i32>()` on a character list. -/
def parseI32 (s : List Char) : Option Int :=
  match s with
  | '+' :: rest => parseI32core 1 rest
  | '-' :: rest => parseI32core (-1) rest
  | _ => parseI32core 1 s

/-- The marker token searched for on every line. -/
def ccinpMarker : List Char := ("CCINP ").data

/-- The candidate substring following the marker found at index `v`:
everything after the marker up to the next space character, or up to the
end of the line when no space follows. -/
def candidateAt (line : Line) (v : Nat) : List Char :=
  match findSub ([' ']) (line.drop (v + ccinpMarker.length)) with
  | some w => (line.drop (v + ccinpMarker.length)).take w
  | none => line.drop (v + ccinpMarker.length)

/-- Processing of one text line inside `extract_exercise_numbers`:
find the first occurrence of the marker, take the substring up to the
next space (or end of line), parse it as an `i32`, and append it to the
accumulated result if parsing succeeded and it is not already present. -/
def lineStep (res : List Int) (line : Line) : List Int :=
  match findSub ccinpMarker line with
  | none => res
  | some v =>
    match parseI32 (candidateAt line v) with
    | none => res
    | some n => if res.contains n then res else res ++ [n]

/-- `extract_exercise_numbers` from src/main.rs: fold `lineStep` over every
line of every block of every page, starting from the empty result. -/
def extract_exercise_numbers (doc : DocText) : List Int :=
  doc.foldl (fun res page =>
    page.foldl (fun res block =>
      block.foldl lineStep res) res) []

/-! ### Object graphs and the graft map

A PDF document's indirect-object table is modelled as a list indexed by
object id.  A source object is abstracted to the list of object ids it
references (the part of its content the graft algorithm traverses); a
destination object is either a grafted copy (holding its translated
references) or a registered page dictionary.  `graftObj` is mupdf's
`pdf_graft_mapped_object`: consult the identity map first; on a miss,
allocate a fresh destination object, record the mapping *before*
recursing on the dependencies (so shared and cyclic graphs terminate),
then fill in the translated references.  Recursion is fuelled; callers
pass enough fuel, and exhaustion surfaces as a graft error. -/

/-- An object id in a document's indirect-object table. -/
abbrev ObjId := Nat

/-- A source-document indirect object, abstracted to the object ids it
references. -/
structure SrcObj where
  deps : List ObjId
deriving DecidableEq

/-- A value stored under a key of a destination page dictionary. -/
inductive DVal where
  | name : String → DVal
  | ref : ObjId → DVal
deriving DecidableEq

/-- A destination-document indirect object: a grafted copy holding its
translated references, or a registered page dictionary. -/
inductive DObj where
  | node : List ObjId → DObj
  | pageNode : List (String × DVal) → DObj
deriving DecidableEq

/-- The mutable state of one merge operation: the graft map (source id to
destination id, most recent first) together with the destination
document's object table. -/
structure GState where
  map : List (ObjId × ObjId)
  objs : List DObj
deriving DecidableEq

/-- Lookup of a source id in the graft map. -/
def lookupId : List (ObjId × ObjId) → ObjId → Option ObjId
  | [], _ => none
  | (k, v) :: m, i => if i = k then some v else lookupId m i

/-- A source page, with `attrs` the result of mupdf's
`get_dict_inheritable`: the attribute value resolved directly on the
page or through the page-tree inheritance chain, `none` when absent even
after inheritance lookup.  The value is the id of the source object
holding the attribute's content. -/
structure SrcPage where
  attrs : String → Option ObjId

/-- A source document: its object table and its pages in order
(`find_page i` is `pages[i]`, `page_count` is `pages.length`). -/
structure SrcDoc where
  objs : List SrcObj
  pages : List SrcPage

/-- A destination document: object table, page sequence (each page its
dictionary), and rendered text for extraction. -/
structure DestDoc where
  objs : List DObj
  pages : List (List (String × DVal))
  text : DocText
deriving DecidableEq

/-- Graft each id of a dependency list through `g` in order, failing as
soon as one graft fails (mupdf error propagation). -/
def graftFold (g : ObjId → GState → GState × Option ObjId) :
    List ObjId → GState → GState × Option (List ObjId)
  | [], st => (st, some [])
  | j :: js, st =>
    match g j st with
    | (st1, none) => (st1, none)
    | (st1, some dj) =>
      match graftFold g js st1 with
      | (st2, none) => (st2, none)
      | (st2, some ds) => (st2, some (dj :: ds))

/-- mupdf's `pdf_graft_mapped_object`: return the already-mapped
destination id if the source id was grafted before; otherwise allocate a
fresh destination object, record the mapping, graft the dependencies
through the same map, and fill in the translated references.  `none`
signals a graft error (dangling source reference, or fuel exhaustion). -/
def graftObj (src : SrcDoc) : Nat → ObjId → GState → GState × Option ObjId
  | 0, _, st => (st, none)
  | fuel + 1, i, st =>
    match lookupId st.map i with
    | some d => (st, some d)
    | none =>
      match src.objs.get? i with
      | none => (st, none)
      | some o =>
        match graftFold (fun j st => graftObj src fuel j st) o.deps
            ⟨(i, st.objs.length) :: st.map, st.objs ++ [DObj.node []]⟩ with
        | (st2, none) => (st2, none)
        | (st2, some ds) =>
          (⟨st2.map, st2.objs.set st.objs.length (DObj.node ds)⟩, some st.objs.length)

/-- A graft state is closed outside the `pending` ids when every mapped
source id resolves in the source table and has all of its references
mapped as well: no object is ever left partially grafted. -/
def ClosedExcept (src : SrcDoc) (pending : List ObjId) (st : GState) : Prop :=
  ∀ i d, lookupId st.map i = some d →
    i ∈ pending ∨ ∃ o, src.objs.get? i = some o ∧
      ∀ j ∈ o.deps, ∃ e, lookupId st.map j = some e

/-! ### Page merge (`merge_pdf_document`) -/

/-- Lookup of a key in a page dictionary (keys written by the merge are
pairwise distinct, so the first match is the only one). -/
def dictLookup : List (String × DVal) → String → Option DVal
  | [], _ => none
  | (k, v) :: d, n => if n = k then some v else dictLookup d n

/-- The fixed allow-list of page attributes copied by the merge, in the
order the source iterates them. -/
def to_copy : List String :=
  ["Contents", "Resources", "MediaBox", "CropBox", "BleedBox", "TrimBox",
    "ArtBox", "Rotate", "UserUnit"]

/-- The fuel handed to each in-merge graft call: one more than the number
of source objects, enough for the identity map to cut off every path. -/
def graftFuel (src : SrcDoc) : Nat := src.objs.length + 1

/-- The attribute-copy loop of `merge_pdf_document` for one page: for
each allow-listed name, when the inheritance-resolved source attribute
is present, graft it and put the grafted value under the same name in
the destination page dictionary; absent attributes are skipped.  `none`
signals a graft failure. -/
def copyAttrs (src : SrcDoc) (p : SrcPage) :
    List String → GState → List (String × DVal) → GState × Option (List (String × DVal))
  | [], st, dict => (st, some dict)
  | n :: ns, st, dict =>
    match p.attrs n with
    | none => copyAttrs src p ns st dict
    | some srcObj =>
      match graftObj src (graftFuel src) srcObj st with
      | (st1, none) => (st1, none)
      | (st1, some destObj) =>
        copyAttrs src p ns st1 (dict ++ [(n, DVal.ref destObj)])

/-- The page loop of `merge_pdf_document`: for each source page in order,
build a fresh destination page dictionary tagged `Type Page`, copy the
allow-listed attributes through the graft map, register the page
dictionary in the destination object table, and append it to the
accumulated new-page sequence. -/
def mergePages (src : SrcDoc) :
    List SrcPage → GState → List (List (String × DVal)) →
      Option (GState × List (List (String × DVal)))
  | [], st, acc => some (st, acc)
  | p :: ps, st, acc =>
    match copyAttrs src p to_copy st [("Type", DVal.name ("Page"))] with
    | (_, none) => none
    | (st1, some dict) =>
      mergePages src ps ⟨st1.map, st1.objs ++ [DObj.pageNode dict]⟩ (acc ++ [dict])

/-- `merge_pdf_document` from src/main.rs: create a fresh graft map over
the destination document, run the page loop over every source page, and
on success return the destination document with the grown object table
and the new pages appended at the end of its page sequence.  `none` is
the error (`Err`) outcome. -/
def merge_pdf_document (dest : DestDoc) (src : SrcDoc) : Option DestDoc :=
  match mergePages src src.pages ⟨[], dest.objs⟩ [] with
  | none => none
  | some (st, newPages) => some ⟨st.objs, dest.pages ++ newPages, dest.text⟩

/-! ### Pipeline (`generate_fat_pdf`)

The network fetches and mupdf's byte-level parser are external
collaborators, passed in as parameters: `fetchPrimary` is the already
fetched primary response (success bytes, or the transport/HTTP-status
error), `fetchSecondary` maps a URL to fetched bytes or an error, and
the two parsers are `PdfDocument::from_bytes` on each side.  The
function returns the pipeline result (the serialized document on
success) together with the list of URLs requested from the secondary
fetch collaborator, so that call-freedom is expressible. -/

/-- Raw fetched bytes. -/
abbrev ByteData := List Nat

/-- The URL of the secondary (CCINP exercises) document derived from the
extracted numbers: they are joined with commas into a fixed template. -/
def ccinpUri (nums : List Int) : String :=
  ("https://ccinp.mpsi1.fr/") ++ (String.intercalate (",") (nums.map toString)) ++ (".pdf")

/-- `generate_fat_pdf` from src/main.rs: open the primary document,
extract the exercise numbers, and when the set is non-empty fetch,
parse and merge the secondary document; finally serialize (the `.ok`
payload).  The second component records the URLs requested from the
secondary-fetch collaborator. -/
def generate_fat_pdf (fetchPrimary : Except String ByteData)
    (parsePrimary : ByteData → Option DestDoc)
    (fetchSecondary : String → Except String ByteData)
    (parseSecondary : ByteData → Option SrcDoc) :
    Except String DestDoc × List String :=
  match fetchPrimary with
  | Except.error e => (Except.error e, [])
  | Except.ok pdf =>
    match parsePrimary pdf with
    | none => (Except.error ("failed to open colle content PDF"), [])
    | some doc =>
      if (extract_exercise_numbers doc.text).isEmpty then (Except.ok doc, [])
      else
        match fetchSecondary (ccinpUri (extract_exercise_numbers doc.text)) with
        | Except.error e =>
          (Except.error e, [ccinpUri (extract_exercise_numbers doc.text)])
        | Except.ok bs =>
          match parseSecondary bs with
          | none =>
            (Except.error ("failed to open CCINP exercises PDF"),
              [ccinpUri (extract_exercise_numbers doc.text)])
          | some exercises_doc =>
            match merge_pdf_document doc exercises_doc with
            | none =>
              (Except.error ("failed to merge CCINP exercises PDF"),
                [ccinpUri (extract_exercise_numbers doc.text)])
            | some merged =>
              (Except.ok merged, [ccinpUri (extract_exercise_numbers doc.text)])

/-- The attribute-fidelity contract of one merge run: the page loop
succeeded with final graft state `stF` and new pages `newPages`, the
result document is exactly the old one extended with them, and each new
page dictionary carries the `Type Page` tag, an allow-listed attribute
entry for precisely the source attributes present after inheritance
lookup — each holding a reference to the graft-map image of the source
value — and nothing else. -/
def MergeFidelity (dest : DestDoc) (src : SrcDoc) (d' : DestDoc) : Prop :=
  ∃ stF newPages,
    mergePages src src.pages ⟨[], dest.objs⟩ [] = some (stF, newPages) ∧
    d'.objs = stF.objs ∧ d'.pages = dest.pages ++ newPages ∧ d'.text = dest.text ∧
    ∀ k, ∀ hk : k < src.pages.length, ∃ pd,
      newPages.get? k = some pd ∧
      d'.pages.get? (dest.pages.length + k) = some pd ∧
      dictLookup pd ("Type") = some (DVal.name ("Page")) ∧
      (∀ n, ¬ dictLookup pd n = none → n = "Type" ∨ n ∈ to_copy) ∧
      (∀ n, n ∈ to_copy → (src.pages.get ⟨k, hk⟩).attrs n = none →
        dictLookup pd n = none) ∧
      (∀ n o, n ∈ to_copy → (src.pages.get ⟨k, hk⟩).attrs n = some o →
        ∃ dd, dictLookup pd n = some (DVal.ref dd) ∧ lookupId stF.map o = some dd)

/-- An empty destination document, a concrete merge example. -/
def destExample : DestDoc := ⟨[], [], []⟩

/-- A source document with one page carrying no attributes at all. -/
def srcOnePage : SrcDoc := ⟨[], [⟨fun _ => none⟩]⟩

/-- The result of merging `srcOnePage` into `destExample`: one new page
holding only the `Type Page` tag, registered in the object table. -/
def mergedExample : DestDoc :=
  ⟨[DObj.pageNode [("Type", DVal.name ("Page"))]],
    [[("Type", DVal.name ("Page"))]], []⟩

/-- A two-object source document (object 0 references object 1, no
pages), a concrete graft example. -/
def srcExample : SrcDoc := ⟨[⟨[1]⟩, ⟨[]⟩], []⟩

/-- The graft state reached by grafting object 0 of `srcExample` into an
empty destination: both objects copied, both identities mapped. -/
def stExample : GState := ⟨[(1, 1), (0, 0)], [DObj.node [1], DObj.node []]⟩

/-! ### Lemmas about extraction -/

theorem parseI32core_range (sign : Int) (ds : List Char) (n : Int)
    (h : parseI32core sign ds = some n) : -(2 ^ 31) ≤ n ∧ n < 2 ^ 31 := by
  unfold parseI32core at h
  split_ifs at h with h1 h2 h3
  cases h
  exact h3

theorem parseI32_range (s : List Char) (n : Int) (h : parseI32 s = some n) :
    -(2 ^ 31) ≤ n ∧ n < 2 ^ 31 := by
  unfold parseI32 at h
  split at h <;> exact parseI32core_range _ _ _ h

theorem lineStep_shape (res : List Int) (line : Line) :
    lineStep res line = res ∨
      ∃ n, ¬ n ∈ res ∧ (-(2 ^ 31) ≤ n ∧ n < 2 ^ 31) ∧ lineStep res line = res ++ [n] := by
  unfold lineStep
  split
  · exact Or.inl rfl
  · split
    · exact Or.inl rfl
    · rename_i v hv n hn
      by_cases h : res.contains n
      · exact Or.inl (by rw [if_pos h])
      · refine Or.inr ⟨n, ?_, parseI32_range _ _ hn, by rw [if_neg h]⟩
        simpa [List.contains] using h

theorem foldl_pres {α β : Type} {P : α → Prop} (f : α → β → α)
    (hf : ∀ a b, P a → P (f a b)) :
    ∀ (l : List β) (a : α), P a → P (l.foldl f a) := by
  intro l
  induction l with
  | nil => exact fun a h => h
  | cons b t ih => exact fun a h => ih _ (hf a b h)

theorem extract_pres {P : List Int → Prop}
    (hstep : ∀ res line, P res → P (lineStep res line)) (h0 : P []) (doc : DocText) :
    P (extract_exercise_numbers doc) := by
  unfold extract_exercise_numbers
  refine foldl_pres _ (fun a b ha => ?_) doc [] h0
  refine foldl_pres _ (fun a' b' ha' => ?_) b a ha
  exact foldl_pres _ (fun r l hr => hstep r l hr) b' a' ha'

theorem extract_nodup (doc : DocText) : (extract_exercise_numbers doc).Nodup := by
  refine extract_pres (fun res line h => ?_) List.nodup_nil doc
  rcases lineStep_shape res line with heq | ⟨n, hn, _, heq⟩
  · rw [heq]; exact h
  · rw [heq]
    simp [List.nodup_append, h, hn]

/-! ### Claims about extraction -/

/-- C3, counterexample: on a document whose text carries
`CCINP 12 foo CCINP 7 CCINP 12` on a single line, extraction yields
`[12]`, not the `[12, 7]` the claim states: only the first marker
occurrence of a line is examined. -/
theorem c3_counterexample :
    extract_exercise_numbers [[[("CCINP 12 foo CCINP 7 CCINP 12").data]]] = [12] ∧
      ¬ extract_exercise_numbers [[[("CCINP 12 foo CCINP 7 CCINP 12").data]]] = [12, 7] := by
  exact ⟨by decide, by decide⟩

/-- C3 (amended): extraction deduplicates while preserving
first-occurrence order — the result never holds duplicates, and a line
contributes an integer only when it is not already present, appended at
the end; since only the first marker per line is examined, the text
`CCINP 12 foo CCINP 7 CCINP 12` yields `[12, 7]` when the three markers
start separate lines, while as a single line it yields `[12]`. -/
theorem c3_dedup_first_occurrence :
    (∀ doc, (extract_exercise_numbers doc).Nodup) ∧
      (∀ res line, lineStep res line = res ∨
        ∃ n, ¬ n ∈ res ∧ lineStep res line = res ++ [n]) ∧
      extract_exercise_numbers
        [[[("CCINP 12 foo").data, ("CCINP 7").data, ("CCINP 12").data]]] = [12, 7] ∧
      extract_exercise_numbers [[[("CCINP 12 foo CCINP 7 CCINP 12").data]]] = [12] := by
  refine ⟨extract_nodup, fun res line => ?_, by decide, by decide⟩
  rcases lineStep_shape res line with heq | ⟨n, hn, _, heq⟩
  · exact Or.inl heq
  · exact Or.inr ⟨n, hn, heq⟩

/-- C7: for every line whose marker-following candidate substring fails
to parse as a signed integer, processing that line adds no entry and
does not fail — it leaves any accumulated result unchanged — as on the
concrete line `CCINP abc`, whose whole-document extraction returns the
empty result successfully. -/
theorem c7_extraction_tolerance :
    (∀ (res : List Int) (line : Line) (v : Nat),
        findSub ccinpMarker line = some v →
        parseI32 (candidateAt line v) = none →
        lineStep res line = res) ∧
      (∀ res, lineStep res (("CCINP abc").data) = res) ∧
      extract_exercise_numbers [[[("CCINP abc").data]]] = [] := by
  refine ⟨?_, fun res => rfl, by decide⟩
  intro res line v hfind hparse
  simp only [lineStep, hfind, hparse]

/-- Witness for `c7_extraction_tolerance` at a concrete line and
accumulator with a failing candidate parse. -/
theorem c7_extraction_tolerance_witness :
    lineStep [5] (("CCINP abc").data) = [5] :=
  c7_extraction_tolerance.1 [5] (("CCINP abc").data) 0 (by decide) (by decide)

/-- C8, counterexample: the candidate is parsed as a *signed* 32-bit
integer, so a document whose text holds `CCINP -5` extracts the
negative integer `-5`, refuting the claim that every extracted integer
is non-negative. -/
theorem c8_counterexample :
    extract_exercise_numbers [[[("CCINP -5").data]]] = [-5] ∧ (-5 : Int) < 0 := by
  exact ⟨by decide, by decide⟩

/-- C8 (amended): every integer in the extracted result lies in the
signed 32-bit range (negative values can occur, as the candidate is
parsed as a signed `i32`). -/
theorem c8_i32_range (doc : DocText) (x : Int)
    (hx : x ∈ extract_exercise_numbers doc) : -(2 ^ 31) ≤ x ∧ x < 2 ^ 31 := by
  refine extract_pres (P := fun res => ∀ y ∈ res, -(2 ^ 31) ≤ y ∧ y < 2 ^ 31)
    (fun res line h => ?_) (by simp) doc x hx
  rcases lineStep_shape res line with heq | ⟨n, _, hrange, heq⟩
  · rw [heq]; exact h
  · rw [heq]
    intro y hy
    rcases List.mem_append.mp hy with hy | hy
    · exact h y hy
    · rw [List.mem_singleton.mp hy]
      exact hrange

/-- Witness for `c8_i32_range` at a concrete document. -/
theorem c8_i32_range_witness : -(2 ^ 31) ≤ (12 : Int) ∧ (12 : Int) < 2 ^ 31 :=
  c8_i32_range [[[("CCINP 12").data]]] 12 (by decide)

/-- C9: at most one marker occurrence per line is examined — processing
a line appends at most one integer, and on the line
`CCINP 12 foo CCINP 7` only the integer after the first marker is
taken, the later `CCINP 7` being ignored. -/
theorem c9_first_marker_only :
    (∀ res line, lineStep res line = res ∨ ∃ n, lineStep res line = res ++ [n]) ∧
      lineStep [] (("CCINP 12 foo CCINP 7").data) = [12] ∧
      extract_exercise_numbers [[[("CCINP 12 foo CCINP 7").data]]] = [12] ∧
      extract_exercise_numbers [[[("foo CCINP 3 bar CCINP 4 baz").data]]] = [3] := by
  refine ⟨fun res line => ?_, by decide, by decide, by decide⟩
  rcases lineStep_shape res line with heq | ⟨n, _, _, heq⟩
  · exact Or.inl heq
  · exact Or.inr ⟨n, heq⟩

/-! ### Lemmas about the graft map -/

theorem lookupId_cons (m : List (ObjId × ObjId)) (i dnew k : ObjId) :
    lookupId ((i, dnew) :: m) k = if k = i then some dnew else lookupId m k := rfl

theorem lookupId_cons_ne (m : List (ObjId × ObjId)) (i dnew k v : ObjId)
    (hi : lookupId m i = none) (hk : lookupId m k = some v) :
    lookupId ((i, dnew) :: m) k = some v := by
  rw [lookupId_cons]
  rcases eq_or_ne k i with rfl | hne
  · rw [hi] at hk
    cases hk
  · rw [if_neg hne]
    exact hk

theorem graftFold_lookup_pres (g : ObjId → GState → GState × Option ObjId)
    (hg : ∀ j st st' r, g j st = (st', r) →
      ∀ k v, lookupId st.map k = some v → lookupId st'.map k = some v) :
    ∀ (js : List ObjId) (st st' : GState) (r : Option (List ObjId)),
      graftFold g js st = (st', r) →
      ∀ k v, lookupId st.map k = some v → lookupId st'.map k = some v := by
  intro js
  induction js with
  | nil =>
    intro st st' r h k v hk
    cases h
    exact hk
  | cons j js ih =>
    intro st st' r h k v hk
    unfold graftFold at h
    split at h
    · rename_i st1 hgj
      cases h
      exact hg _ _ _ _ hgj k v hk
    · rename_i st1 dj hgj
      split at h
      · rename_i st2 hfold
        cases h
        exact ih _ _ _ hfold k v (hg _ _ _ _ hgj k v hk)
      · rename_i st2 ds hfold
        cases h
        exact ih _ _ _ hfold k v (hg _ _ _ _ hgj k v hk)

theorem graftObj_lookup_pres (src : SrcDoc) :
    ∀ (fuel : Nat) (i : ObjId) (st st' : GState) (r : Option ObjId),
      graftObj src fuel i st = (st', r) →
      ∀ k v, lookupId st.map k = some v → lookupId st'.map k = some v := by
  intro fuel
  induction fuel with
  | zero =>
    intro i st st' r h k v hk
    cases h
    exact hk
  | succ fuel ih =>
    intro i st st' r h k v hk
    unfold graftObj at h
    split at h
    · cases h
      exact hk
    · rename_i hmiss
      split at h
      · cases h
        exact hk
      · rename_i o hget
        split at h
        · rename_i st2 hfold
          cases h
          exact graftFold_lookup_pres _ (fun j s s' r h => ih j s s' r h) _ _ _ _ hfold
            k v (lookupId_cons_ne _ _ _ _ _ hmiss hk)
        · rename_i st2 ds hfold
          cases h
          exact graftFold_lookup_pres _ (fun j s s' r h => ih j s s' r h) _ _ _ _ hfold
            k v (lookupId_cons_ne _ _ _ _ _ hmiss hk)

theorem graftFold_count (g : ObjId → GState → GState × Option ObjId)
    (hg : ∀ j st st' r, g j st = (st', r) →
      st'.objs.length + st.map.length = st'.map.length + st.objs.length) :
    ∀ (js : List ObjId) (st st' : GState) (r : Option (List ObjId)),
      graftFold g js st = (st', r) →
      st'.objs.length + st.map.length = st'.map.length + st.objs.length := by
  intro js
  induction js with
  | nil =>
    intro st st' r h
    cases h
    exact Nat.add_comm _ _
  | cons j js ih =>
    intro st st' r h
    unfold graftFold at h
    split at h
    · rename_i st1 hgj
      cases h
      exact hg _ _ _ _ hgj
    · rename_i st1 dj hgj
      have h1 := hg _ _ _ _ hgj
      split at h
      · rename_i st2 hfold
        cases h
        have h2 := ih _ _ _ hfold
        omega
      · rename_i st2 ds hfold
        cases h
        have h2 := ih _ _ _ hfold
        omega

theorem graftObj_count (src : SrcDoc) :
    ∀ (fuel : Nat) (i : ObjId) (st st' : GState) (r : Option ObjId),
      graftObj src fuel i st = (st', r) →
      st'.objs.length + st.map.length = st'.map.length + st.objs.length := by
  intro fuel
  induction fuel with
  | zero =>
    intro i st st' r h
    cases h
    exact Nat.add_comm _ _
  | succ fuel ih =>
    intro i st st' r h
    unfold graftObj at h
    split at h
    · cases h
      exact Nat.add_comm _ _
    · split at h
      · cases h
        exact Nat.add_comm _ _
      · rename_i o hget
        split at h
        · rename_i st2 hfold
          cases h
          have h2 := graftFold_count _ (fun j s s' r h => ih j s s' r h) _ _ _ _ hfold
          simp only [List.length_cons, List.length_append, List.length_nil] at h2 ⊢
          omega
        · rename_i st2 ds hfold
          cases h
          have h2 := graftFold_count _ (fun j s s' r h => ih j s s' r h) _ _ _ _ hfold
          simp only [List.length_cons, List.length_append, List.length_nil,
            List.length_set] at h2 ⊢
          omega

theorem graftObj_success_mapped (src : SrcDoc) :
    ∀ (fuel : Nat) (i : ObjId) (st st' : GState) (d : ObjId),
      graftObj src fuel i st = (st', some d) → lookupId st'.map i = some d := by
  intro fuel
  induction fuel with
  | zero =>
    intro i st st' d h
    cases h
  | succ fuel ih =>
    intro i st st' d h
    unfold graftObj at h
    split at h
    · rename_i d0 hhit
      cases h
      exact hhit
    · rename_i hmiss
      split at h
      · cases h
      · rename_i o hget
        split at h
        · cases h
        · rename_i st2 ds hfold
          cases h
          have hbase : lookupId ((i, st.objs.length) :: st.map) i = some st.objs.length := by
            rw [lookupId_cons, if_pos rfl]
          exact graftFold_lookup_pres _ (fun j s s' r h => graftObj_lookup_pres src fuel j s s' r h)
            _ _ _ _ hfold i st.objs.length hbase

theorem graftObj_idempotent (src : SrcDoc) (fuel fuel' : Nat) (i : ObjId)
    (st st' : GState) (d : ObjId) (h : graftObj src fuel i st = (st', some d)) :
    graftObj src (fuel' + 1) i st' = (st', some d) := by
  unfold graftObj
  rw [graftObj_success_mapped src fuel i st st' d h]

theorem lookupId_none_not_mem (m : List (ObjId × ObjId)) (i : ObjId)
    (h : lookupId m i = none) : ¬ i ∈ m.map Prod.fst := by
  induction m with
  | nil => simp
  | cons p m ih =>
    obtain ⟨k, v⟩ := p
    rw [lookupId_cons] at h
    by_cases hik : i = k
    · rw [if_pos hik] at h
      cases h
    · rw [if_neg hik] at h
      simp [hik, ih h]

theorem graftFold_keys (g : ObjId → GState → GState × Option ObjId)
    (hg : ∀ j st st' r, g j st = (st', r) →
      (st.map.map Prod.fst).Nodup → (st'.map.map Prod.fst).Nodup) :
    ∀ (js : List ObjId) (st st' : GState) (r : Option (List ObjId)),
      graftFold g js st = (st', r) →
      (st.map.map Prod.fst).Nodup → (st'.map.map Prod.fst).Nodup := by
  intro js
  induction js with
  | nil =>
    intro st st' r h hnd
    cases h
    exact hnd
  | cons j js ih =>
    intro st st' r h hnd
    unfold graftFold at h
    split at h
    · rename_i st1 hgj
      cases h
      exact hg _ _ _ _ hgj hnd
    · rename_i st1 dj hgj
      split at h
      · rename_i st2 hfold
        cases h
        exact ih _ _ _ hfold (hg _ _ _ _ hgj hnd)
      · rename_i st2 ds hfold
        cases h
        exact ih _ _ _ hfold (hg _ _ _ _ hgj hnd)

theorem graftObj_keys (src : SrcDoc) :
    ∀ (fuel : Nat) (i : ObjId) (st st' : GState) (r : Option ObjId),
      graftObj src fuel i st = (st', r) →
      (st.map.map Prod.fst).Nodup → (st'.map.map Prod.fst).Nodup := by
  intro fuel
  induction fuel with
  | zero =>
    intro i st st' r h hnd
    cases h
    exact hnd
  | succ fuel ih =>
    intro i st st' r h hnd
    unfold graftObj at h
    split at h
    · cases h
      exact hnd
    · rename_i hmiss
      split at h
      · cases h
        exact hnd
      · rename_i o hget
        have hnd1 : ((((i, st.objs.length) :: st.map)).map Prod.fst).Nodup := by
          simp only [List.map_cons, List.nodup_cons]
          exact ⟨lookupId_none_not_mem _ _ hmiss, hnd⟩
        split at h
        · rename_i st2 hfold
          cases h
          exact graftFold_keys _ (fun j s s' r h => ih j s s' r h) _ _ _ _ hfold hnd1
        · rename_i st2 ds hfold
          cases h
          exact graftFold_keys _ (fun j s s' r h => ih j s s' r h) o.deps _ st2 (some ds)
            hfold hnd1

theorem graftFold_closed (src : SrcDoc) (g : ObjId → GState → GState × Option ObjId)
    (P : List ObjId)
    (hgC : ∀ j st st' dj, ClosedExcept src P st → g j st = (st', some dj) →
      ClosedExcept src P st')
    (hgL : ∀ j st st' r, g j st = (st', r) →
      ∀ k v, lookupId st.map k = some v → lookupId st'.map k = some v)
    (hgM : ∀ j st st' dj, g j st = (st', some dj) → lookupId st'.map j = some dj) :
    ∀ (js : List ObjId) (st st' : GState) (ds : List ObjId),
      ClosedExcept src P st → graftFold g js st = (st', some ds) →
      ClosedExcept src P st' ∧ ∀ j ∈ js, ∃ e, lookupId st'.map j = some e := by
  intro js
  induction js with
  | nil =>
    intro st st' ds hC h
    cases h
    exact ⟨hC, by simp⟩
  | cons j js ih =>
    intro st st' ds hC h
    unfold graftFold at h
    split at h
    · cases h
    · rename_i st1 dj hgj
      split at h
      · cases h
      · rename_i st2 ds2 hfold
        cases h
        obtain ⟨hC2, hall⟩ := ih _ _ _ (hgC _ _ _ _ hC hgj) hfold
        refine ⟨hC2, fun k hk => ?_⟩
        rcases List.mem_cons.mp hk with rfl | hk2
        · exact ⟨dj, graftFold_lookup_pres g hgL _ _ _ _ hfold _ _ (hgM _ _ _ _ hgj)⟩
        · exact hall k hk2

theorem graftObj_closed (src : SrcDoc) :
    ∀ (fuel : Nat) (P : List ObjId) (i : ObjId) (st st' : GState) (d : ObjId),
      ClosedExcept src P st → graftObj src fuel i st = (st', some d) →
      ClosedExcept src P st' := by
  intro fuel
  induction fuel with
  | zero =>
    intro P i st st' d hC h
    cases h
  | succ fuel ih =>
    intro P i st st' d hC h
    unfold graftObj at h
    split at h
    · cases h
      exact hC
    · rename_i hmiss
      split at h
      · cases h
      · rename_i o hget
        split at h
        · cases h
        · rename_i st2 ds hfold
          cases h
          have hC1 : ClosedExcept src (i :: P)
              ⟨(i, st.objs.length) :: st.map, st.objs ++ [DObj.node []]⟩ := by
            intro k dk hk
            rw [lookupId_cons] at hk
            by_cases hki : k = i
            · exact Or.inl (by simp [hki])
            · rw [if_neg hki] at hk
              rcases hC k dk hk with hP | ⟨o2, ho2, hdeps⟩
              · exact Or.inl (List.mem_cons_of_mem _ hP)
              · refine Or.inr ⟨o2, ho2, fun j hj => ?_⟩
                obtain ⟨e, he⟩ := hdeps j hj
                exact ⟨e, lookupId_cons_ne _ _ _ _ _ hmiss he⟩
          obtain ⟨hC2, hall⟩ := graftFold_closed src _ (i :: P)
            (fun j s s' dj hc hg => ih (i :: P) j s s' dj hc hg)
            (fun j s s' r hg => graftObj_lookup_pres src fuel j s s' r hg)
            (fun j s s' dj hg => graftObj_success_mapped src fuel j s s' dj hg)
            o.deps _ _ _ hC1 hfold
          intro k dk hk
          rcases hC2 k dk hk with hkP | hrest
          · rcases List.mem_cons.mp hkP with rfl | hkP2
            · exact Or.inr ⟨o, hget, fun j hj => hall j hj⟩
            · exact Or.inl hkP2
          · exact Or.inr hrest

theorem graftFold_objs_pres (g : ObjId → GState → GState × Option ObjId)
    (hg : ∀ j st st' r, g j st = (st', r) →
      st.objs.length ≤ st'.objs.length ∧
        ∀ k, k < st.objs.length → st'.objs.get? k = st.objs.get? k) :
    ∀ (js : List ObjId) (st st' : GState) (r : Option (List ObjId)),
      graftFold g js st = (st', r) →
      st.objs.length ≤ st'.objs.length ∧
        ∀ k, k < st.objs.length → st'.objs.get? k = st.objs.get? k := by
  intro js
  induction js with
  | nil =>
    intro st st' r h
    cases h
    exact ⟨Nat.le_refl _, fun k hk => rfl⟩
  | cons j js ih =>
    intro st st' r h
    unfold graftFold at h
    split at h
    · rename_i st1 hgj
      cases h
      exact hg _ _ _ _ hgj
    · rename_i st1 dj hgj
      obtain ⟨hle1, hpre1⟩ := hg _ _ _ _ hgj
      have step : ∀ (st2 : GState) (r2 : Option (List ObjId)),
          graftFold g js st1 = (st2, r2) →
          st.objs.length ≤ st2.objs.length ∧
            ∀ k, k < st.objs.length → st2.objs.get? k = st.objs.get? k := by
        intro st2 r2 hfold
        obtain ⟨hle2, hpre2⟩ := ih _ _ _ hfold
        exact ⟨Nat.le_trans hle1 hle2,
          fun k hk => (hpre2 k (Nat.lt_of_lt_of_le hk hle1)).trans (hpre1 k hk)⟩
      split at h
      · rename_i st2 hfold
        cases h
        exact step _ _ hfold
      · rename_i st2 ds hfold
        cases h
        exact step _ _ hfold

theorem graftObj_objs_pres (src : SrcDoc) :
    ∀ (fuel : Nat) (i : ObjId) (st st' : GState) (r : Option ObjId),
      graftObj src fuel i st = (st', r) →
      st.objs.length ≤ st'.objs.length ∧
        ∀ k, k < st.objs.length → st'.objs.get? k = st.objs.get? k := by
  intro fuel
  induction fuel with
  | zero =>
    intro i st st' r h
    cases h
    exact ⟨Nat.le_refl _, fun k hk => rfl⟩
  | succ fuel ih =>
    intro i st st' r h
    unfold graftObj at h
    split at h
    · cases h
      exact ⟨Nat.le_refl _, fun k hk => rfl⟩
    · split at h
      · cases h
        exact ⟨Nat.le_refl _, fun k hk => rfl⟩
      · rename_i o hget
        have hbase : ∀ k, k < st.objs.length →
            (st.objs ++ [DObj.node []]).get? k = st.objs.get? k :=
          fun k hk => List.get?_append hk
        have hlen1 : st.objs.length ≤ (st.objs ++ [DObj.node []]).length := by
          simp
        split at h
        · rename_i st2 hfold
          cases h
          obtain ⟨hle2, hpre2⟩ := graftFold_objs_pres _
            (fun j s s' r h => ih j s s' r h) _ _ _ _ hfold
          refine ⟨Nat.le_trans hlen1 hle2, fun k hk => ?_⟩
          have hk1 : k < (st.objs ++ [DObj.node []]).length := Nat.lt_of_lt_of_le hk hlen1
          exact (hpre2 k hk1).trans (hbase k hk)
        · rename_i st2 ds hfold
          cases h
          obtain ⟨hle2, hpre2⟩ := graftFold_objs_pres _
            (fun j s s' r h => ih j s s' r h) _ _ _ _ hfold
          refine ⟨?_, fun k hk => ?_⟩
          · simpa using Nat.le_trans hlen1 hle2
          · have hk1 : k < (st.objs ++ [DObj.node []]).length := Nat.lt_of_lt_of_le hk hlen1
            have hne : st.objs.length ≠ k := Nat.ne_of_gt hk
            calc (st2.objs.set st.objs.length (DObj.node ds)).get? k
                = st2.objs.get? k := List.get?_set_ne _ _ hne
              _ = (st.objs ++ [DObj.node []]).get? k := hpre2 k hk1
              _ = st.objs.get? k := hbase k hk

theorem dictLookup_cons (d : List (String × DVal)) (k : String) (v : DVal) (n : String) :
    dictLookup ((k, v) :: d) n = if n = k then some v else dictLookup d n := rfl

theorem dictLookup_append (d1 d2 : List (String × DVal)) (n : String) :
    dictLookup (d1 ++ d2) n =
      match dictLookup d1 n with
      | some v => some v
      | none => dictLookup d2 n := by
  induction d1 with
  | nil => rfl
  | cons p d1 ih =>
    obtain ⟨k, v⟩ := p
    rw [List.cons_append, dictLookup_cons, dictLookup_cons]
    by_cases hk : n = k
    · rw [if_pos hk, if_pos hk]
    · rw [if_neg hk, if_neg hk, ih]

theorem dictLookup_append_right (d1 d2 : List (String × DVal)) (n : String)
    (h : dictLookup d1 n = none) : dictLookup (d1 ++ d2) n = dictLookup d2 n := by
  rw [dictLookup_append, h]

theorem dictLookup_append_left (d1 d2 : List (String × DVal)) (n : String) (v : DVal)
    (h : dictLookup d1 n = some v) : dictLookup (d1 ++ d2) n = some v := by
  rw [dictLookup_append, h]

theorem dictLookup_append_single_ne (dict : List (String × DVal)) (n : String) (v : DVal)
    (m : String) (h : ¬ m = n) : dictLookup (dict ++ [(n, v)]) m = dictLookup dict m := by
  rw [dictLookup_append]
  cases hdm : dictLookup dict m with
  | some w => rfl
  | none =>
    rw [dictLookup_cons, if_neg h]
    rfl

theorem copyAttrs_spec (src : SrcDoc) (p : SrcPage) :
    ∀ (ns : List String) (st : GState) (dict : List (String × DVal)) (st' : GState)
      (dict' : List (String × DVal)),
      copyAttrs src p ns st dict = (st', some dict') →
      (∀ m v, dictLookup dict m = some v → dictLookup dict' m = some v) ∧
      (∀ k v, lookupId st.map k = some v → lookupId st'.map k = some v) ∧
      (st.objs.length ≤ st'.objs.length ∧
        ∀ k, k < st.objs.length → st'.objs.get? k = st.objs.get? k) ∧
      (∀ m, ¬ m ∈ ns → dictLookup dict' m = dictLookup dict m) ∧
      (∀ m, m ∈ ns → p.attrs m = none → dictLookup dict' m = dictLookup dict m) ∧
      (∀ m o, m ∈ ns → dictLookup dict m = none → p.attrs m = some o →
        ∃ dd, dictLookup dict' m = some (DVal.ref dd) ∧ lookupId st'.map o = some dd) ∧
      (∀ m, ¬ dictLookup dict' m = none → ¬ dictLookup dict m = none ∨ m ∈ ns) := by
  intro ns
  induction ns with
  | nil =>
    intro st dict st' dict' h
    cases h
    refine ⟨fun m v hv => hv, fun k v hv => hv, ⟨Nat.le_refl _, fun k hk => rfl⟩,
      fun m _ => rfl, fun m hm => absurd hm (List.not_mem_nil m),
      fun m o hm => absurd hm (List.not_mem_nil m),
      fun m h => Or.inl h⟩
  | cons n ns ih =>
    intro st dict st' dict' h
    unfold copyAttrs at h
    split at h
    · rename_i hattr
      obtain ⟨hd, hl, hobjs, hnot, hnone, hsome, hkeys⟩ := ih _ _ _ _ h
      refine ⟨hd, hl, hobjs, ?_, ?_, ?_, ?_⟩
      · intro m hm
        exact hnot m (fun hm2 => hm (List.mem_cons_of_mem _ hm2))
      · intro m hm hm0
        rcases List.mem_cons.mp hm with rfl | hm2
        · by_cases hmem : m ∈ ns
          · exact hnone m hmem hm0
          · exact hnot m hmem
        · exact hnone m hm2 hm0
      · intro m o hm hdm hmo
        rcases List.mem_cons.mp hm with rfl | hm2
        · rw [hattr] at hmo
          cases hmo
        · exact hsome m o hm2 hdm hmo
      · intro m hm
        rcases hkeys m hm with h1 | h2
        · exact Or.inl h1
        · exact Or.inr (List.mem_cons_of_mem _ h2)
    · rename_i srcObj hattr
      split at h
      · cases h
      · rename_i st1 destObj hg
        obtain ⟨hd, hl, hobjs, hnot, hnone, hsome, hkeys⟩ := ih _ _ _ _ h
        have hgl := graftObj_lookup_pres src (graftFuel src) srcObj st st1 (some destObj) hg
        have hgo := graftObj_objs_pres src (graftFuel src) srcObj st st1 (some destObj) hg
        have hgm := graftObj_success_mapped src (graftFuel src) srcObj st st1 destObj hg
        refine ⟨?_, ?_, ?_, ?_, ?_, ?_, ?_⟩
        · intro m v hv
          exact hd m v (dictLookup_append_left _ _ _ _ hv)
        · intro k v hv
          exact hl k v (hgl k v hv)
        · refine ⟨Nat.le_trans hgo.1 hobjs.1, fun k hk => ?_⟩
          exact (hobjs.2 k (Nat.lt_of_lt_of_le hk hgo.1)).trans (hgo.2 k hk)
        · intro m hm
          have hm1 : ¬ m ∈ ns := fun hx => hm (List.mem_cons_of_mem _ hx)
          have hmn : ¬ m = n := fun hx => hm (hx ▸ List.mem_cons_self n ns)
          rw [hnot m hm1, dictLookup_append_single_ne _ _ _ _ hmn]
        · intro m hm hm0
          have hmn : ¬ m = n := by
            intro hx
            rw [hx, hattr] at hm0
            cases hm0
          have hm2 : m ∈ ns := by
            rcases List.mem_cons.mp hm with h1 | h2
            · exact absurd h1 hmn
            · exact h2
          rw [hnone m hm2 hm0, dictLookup_append_single_ne _ _ _ _ hmn]
        · intro m o hm hdm hmo
          by_cases hmn : m = n
          · subst hmn
            rw [hattr] at hmo
            injection hmo with hmo
            subst hmo
            refine ⟨destObj, ?_, ?_⟩
            · refine hd m (DVal.ref destObj) ?_
              rw [dictLookup_append_right _ _ _ hdm, dictLookup_cons, if_pos rfl]
            · exact hl srcObj destObj hgm
          · have hm2 : m ∈ ns := by
              rcases List.mem_cons.mp hm with h1 | h2
              · exact absurd h1 hmn
              · exact h2
            have hdm2 : dictLookup (dict ++ [(n, DVal.ref destObj)]) m = none := by
              rw [dictLookup_append_single_ne _ _ _ _ hmn, hdm]
            exact hsome m o hm2 hdm2 hmo
        · intro m hm
          rcases hkeys m hm with h1 | h2
          · by_cases hmn : m = n
            · exact Or.inr (hmn ▸ List.mem_cons_self n ns)
            · rw [dictLookup_append_single_ne _ _ _ _ hmn] at h1
              exact Or.inl h1
          · exact Or.inr (List.mem_cons_of_mem _ h2)

theorem dictLookup_base_type :
    dictLookup [("Type", DVal.name ("Page"))] ("Type") = some (DVal.name ("Page")) := by
  rw [dictLookup_cons, if_pos rfl]

theorem dictLookup_base_ne (n : String) (hn : ¬ n = "Type") :
    dictLookup [("Type", DVal.name ("Page"))] n = none := by
  rw [dictLookup_cons, if_neg hn]
  rfl

theorem to_copy_ne_type : ∀ n ∈ to_copy, ¬ n = "Type" := by decide

theorem mergePages_spec (src : SrcDoc) :
    ∀ (ps : List SrcPage) (st : GState) (acc : List (List (String × DVal)))
      (st' : GState) (acc' : List (List (String × DVal))),
      mergePages src ps st acc = some (st', acc') →
      (∀ k v, lookupId st.map k = some v → lookupId st'.map k = some v) ∧
      (st.objs.length ≤ st'.objs.length ∧
        ∀ k, k < st.objs.length → st'.objs.get? k = st.objs.get? k) ∧
      ∃ newPages, acc' = acc ++ newPages ∧ newPages.length = ps.length ∧
        (∀ pd ∈ newPages, DObj.pageNode pd ∈ st'.objs) ∧
        ∀ k (hk : k < ps.length), ∃ pd, newPages.get? k = some pd ∧
          dictLookup pd ("Type") = some (DVal.name ("Page")) ∧
          (∀ n, ¬ dictLookup pd n = none → n = "Type" ∨ n ∈ to_copy) ∧
          (∀ n, n ∈ to_copy → (ps.get ⟨k, hk⟩).attrs n = none → dictLookup pd n = none) ∧
          (∀ n o, n ∈ to_copy → (ps.get ⟨k, hk⟩).attrs n = some o →
            ∃ dd, dictLookup pd n = some (DVal.ref dd) ∧ lookupId st'.map o = some dd) := by
  intro ps
  induction ps with
  | nil =>
    intro st acc st' acc' h
    cases h
    refine ⟨fun k v hv => hv, ⟨Nat.le_refl _, fun k hk => rfl⟩,
      [], (List.append_nil acc).symm, rfl, by simp,
      fun k hk => absurd hk (Nat.not_lt_zero k)⟩
  | cons p ps ih =>
    intro st acc st' acc' h
    unfold mergePages at h
    split at h
    · cases h
    · rename_i st1 dict hca
      obtain ⟨hcaD, hcaL, hcaO, hcaNot, hcaNone, hcaSome, hcaKeys⟩ :=
        copyAttrs_spec src p to_copy st _ st1 dict hca
      obtain ⟨hl2, hobjs2, newT, hacc, hlenT, hregT, hidxT⟩ := ih _ _ _ _ h
      have hst2len : (st1.objs ++ [DObj.pageNode dict]).length = st1.objs.length + 1 := by
        simp
      refine ⟨?_, ?_, dict :: newT, ?_, ?_, ?_, ?_⟩
      · intro k v hv
        exact hl2 k v (hcaL k v hv)
      · refine ⟨?_, fun k hk => ?_⟩
        · refine Nat.le_trans hcaO.1 (Nat.le_trans ?_ hobjs2.1)
          rw [hst2len]
          exact Nat.le_succ _
        · have hk1 : k < st1.objs.length := Nat.lt_of_lt_of_le hk hcaO.1
          have hk2 : k < (st1.objs ++ [DObj.pageNode dict]).length := by
            rw [hst2len]
            exact Nat.lt_succ_of_lt hk1
          calc st'.objs.get? k
              = (st1.objs ++ [DObj.pageNode dict]).get? k := hobjs2.2 k hk2
            _ = st1.objs.get? k := List.get?_append hk1
            _ = st.objs.get? k := hcaO.2 k hk
      · rw [hacc, List.append_assoc]
        rfl
      · simp [hlenT]
      · intro pd hpd
        rcases List.mem_cons.mp hpd with rfl | hpd2
        · have hidx : (st1.objs ++ [DObj.pageNode pd]).get? st1.objs.length =
              some (DObj.pageNode pd) := List.get?_concat_length _ _
          have hlt : st1.objs.length < (st1.objs ++ [DObj.pageNode pd]).length := by
            rw [hst2len]
            exact Nat.lt_succ_self _
          have := (hobjs2.2 st1.objs.length hlt).trans hidx
          exact List.get?_mem this
        · exact hregT pd hpd2
      · intro k hk
        cases k with
        | zero =>
          refine ⟨dict, rfl, ?_, ?_, ?_, ?_⟩
          · exact hcaD ("Type") (DVal.name ("Page")) dictLookup_base_type
          · intro n hn
            rcases hcaKeys n hn with h1 | h2
            · by_cases hnT : n = "Type"
              · exact Or.inl hnT
              · exact absurd (dictLookup_base_ne n hnT) h1
            · exact Or.inr h2
          · intro n hn hna
            have := hcaNone n hn hna
            rw [this, dictLookup_base_ne n (to_copy_ne_type n hn)]
          · intro n o hn hna
            obtain ⟨dd, hdd, hmap⟩ :=
              hcaSome n o hn (dictLookup_base_ne n (to_copy_ne_type n hn)) hna
            exact ⟨dd, hdd, hl2 o dd hmap⟩
        | succ k =>
          obtain ⟨pd, hpd, hT, hK, hN, hS⟩ := hidxT k (Nat.lt_of_succ_lt_succ hk)
          exact ⟨pd, hpd, hT, hK, hN, hS⟩

/-- C6: within one merge operation's graft map, grafting an already
grafted source identity returns the same destination identity and leaves
the state (hence the object count) unchanged; every graft call grows the
destination object table by exactly the number of newly mapped source
identities (which are pairwise distinct); and after any successful graft
the map stays closed: every mapped object's references are mapped
through the same map. -/
theorem c6_graft_map_properties :
    (∀ (src : SrcDoc) (fuel fuel' : Nat) (i : ObjId) (st st' : GState) (d : ObjId),
        graftObj src fuel i st = (st', some d) →
        graftObj src (fuel' + 1) i st' = (st', some d)) ∧
    (∀ (src : SrcDoc) (fuel : Nat) (i : ObjId) (st st' : GState) (r : Option ObjId),
        graftObj src fuel i st = (st', r) →
        st'.objs.length + st.map.length = st'.map.length + st.objs.length) ∧
    (∀ (src : SrcDoc) (fuel : Nat) (i : ObjId) (st st' : GState) (r : Option ObjId),
        graftObj src fuel i st = (st', r) →
        (st.map.map Prod.fst).Nodup → (st'.map.map Prod.fst).Nodup) ∧
    (∀ (src : SrcDoc) (P : List ObjId) (fuel : Nat) (i : ObjId) (st st' : GState) (d : ObjId),
        ClosedExcept src P st → graftObj src fuel i st = (st', some d) →
        ClosedExcept src P st') :=
  ⟨fun src fuel fuel' i st st' d h => graftObj_idempotent src fuel fuel' i st st' d h,
    fun src fuel i st st' r h => graftObj_count src fuel i st st' r h,
    fun src fuel i st st' r h hnd => graftObj_keys src fuel i st st' r h hnd,
    fun src P fuel i st st' d hC h => graftObj_closed src fuel P i st st' d hC h⟩

/-- Witness for `c6_graft_map_properties` on the concrete two-object
source `srcExample` grafted into an empty destination. -/
theorem c6_graft_map_properties_witness :
    graftObj srcExample 1 0 stExample = (stExample, some 0) ∧
    stExample.objs.length + (⟨[], []⟩ : GState).map.length =
      stExample.map.length + (⟨[], []⟩ : GState).objs.length ∧
    (stExample.map.map Prod.fst).Nodup ∧
    ClosedExcept srcExample [] stExample := by
  refine ⟨?_, ?_, ?_, ?_⟩
  · exact c6_graft_map_properties.1 srcExample 3 0 0 ⟨[], []⟩ stExample 0 (by decide)
  · exact c6_graft_map_properties.2.1 srcExample 3 0 ⟨[], []⟩ stExample (some 0) (by decide)
  · exact c6_graft_map_properties.2.2.1 srcExample 3 0 ⟨[], []⟩ stExample (some 0)
      (by decide) (by decide)
  · exact c6_graft_map_properties.2.2.2 srcExample [] 3 0 ⟨[], []⟩ stExample 0
      (fun i d h => Option.noConfusion h) (by decide)

/-- C1, counterexample: merging a one-page source with no attributes
produces a destination page that carries the entry `Type Page` — an
attribute outside the nine-name allow list — so an attribute outside
the allow list does appear on every destination page. -/
theorem c1_counterexample :
    merge_pdf_document destExample srcOnePage = some mergedExample ∧
    mergedExample.pages.get? 0 = some [("Type", DVal.name ("Page"))] ∧
    dictLookup [("Type", DVal.name ("Page"))] ("Type") = some (DVal.name ("Page")) ∧
    ¬ "Type" ∈ to_copy :=
  ⟨by rfl, rfl, dictLookup_base_type, by decide⟩

/-- C1 (amended): for every source page merged, each of the nine
allow-listed attributes present on the source page (directly or via
inheritance lookup) appears on the corresponding destination page under
the same name holding the grafted equivalent value (the graft-map image
of the source object); an attribute absent even after inheritance lookup
is omitted; and no attribute outside the allow list appears on the
destination page other than the mandatory page-type tag `Type Page`
that the merge writes on every destination page. -/
theorem c1_attribute_fidelity (dest : DestDoc) (src : SrcDoc) (d' : DestDoc)
    (h : merge_pdf_document dest src = some d') : MergeFidelity dest src d' := by
  unfold merge_pdf_document at h
  split at h
  · cases h
  · rename_i st newPages hmp
    obtain ⟨hl, hobjs, newP, hacc, hlen, hreg, hidx⟩ :=
      mergePages_spec src src.pages _ _ _ _ hmp
    rw [List.nil_append] at hacc
    subst hacc
    cases h
    refine ⟨st, newPages, hmp, rfl, rfl, rfl, ?_⟩
    intro k hk
    obtain ⟨pd, hpd, hT, hKeys, hNone, hSome⟩ := hidx k hk
    refine ⟨pd, hpd, ?_, hT, hKeys, hNone, hSome⟩
    rw [List.get?_append_right (Nat.le_add_right _ _), Nat.add_sub_cancel_left]
    exact hpd

/-- Witness for `c1_attribute_fidelity` on the concrete one-page merge. -/
theorem c1_attribute_fidelity_witness :
    MergeFidelity destExample srcOnePage mergedExample :=
  c1_attribute_fidelity destExample srcOnePage mergedExample (by rfl)

/-- C2: a successful merge leaves the destination's original page
sequence as a prefix and appends one new page per source page at the
end, in source page order, each registered in the destination object
table. -/
theorem c2_order_preservation (dest : DestDoc) (src : SrcDoc) (d' : DestDoc)
    (h : merge_pdf_document dest src = some d') :
    ∃ newPages, d'.pages = dest.pages ++ newPages ∧
      newPages.length = src.pages.length ∧
      ∀ pd ∈ newPages, DObj.pageNode pd ∈ d'.objs := by
  unfold merge_pdf_document at h
  split at h
  · cases h
  · rename_i st newPages hmp
    obtain ⟨hl, hobjs, newP, hacc, hlen, hreg, hidx⟩ :=
      mergePages_spec src src.pages _ _ _ _ hmp
    rw [List.nil_append] at hacc
    subst hacc
    cases h
    exact ⟨newPages, rfl, hlen, hreg⟩

/-- Witness for `c2_order_preservation` on the concrete one-page merge. -/
theorem c2_order_preservation_witness :
    ∃ newPages, mergedExample.pages = destExample.pages ++ newPages ∧
      newPages.length = srcOnePage.pages.length ∧
      ∀ pd ∈ newPages, DObj.pageNode pd ∈ mergedExample.objs :=
  c2_order_preservation destExample srcOnePage mergedExample (by rfl)

/-! ### Claims about the merge frame and the pipeline -/

/-- C10: merging a source document with zero pages succeeds and returns
the destination document unchanged — no page appended, no attribute
copied, no object added. -/
theorem c10_empty_source_merge (dest : DestDoc) (objsS : List SrcObj) :
    merge_pdf_document dest ⟨objsS, []⟩ = some dest := by
  unfold merge_pdf_document mergePages
  simp

/-- C4: when extraction over the primary document yields the empty set,
the pipeline makes no secondary-fetch call and its output is the
primary document unmodified (hence with identical page structure); the
empty set is a success, not an error. -/
theorem c4_empty_short_circuit (fp : Except String ByteData)
    (pp : ByteData → Option DestDoc) (fs : String → Except String ByteData)
    (ps : ByteData → Option SrcDoc) (pdf : ByteData) (doc : DestDoc)
    (hfp : fp = Except.ok pdf) (hpp : pp pdf = some doc)
    (hext : extract_exercise_numbers doc.text = []) :
    generate_fat_pdf fp pp fs ps = (Except.ok doc, []) := by
  subst hfp
  simp [generate_fat_pdf, hpp, hext]

/-- Witness for `c4_empty_short_circuit`: a primary document with no
marker in its text passes through unchanged with no secondary fetch. -/
theorem c4_empty_short_circuit_witness :
    generate_fat_pdf (Except.ok []) (fun _ => some ⟨[], [], [[[("hello").data]]]⟩)
      (fun _ => Except.error ("unreachable")) (fun _ => none) =
      (Except.ok ⟨[], [], [[[("hello").data]]]⟩, []) :=
  c4_empty_short_circuit _ _ _ _ [] ⟨[], [], [[[("hello").data]]]⟩ rfl rfl (by decide)

/-- C5: a secondary-document fetch failure or parse failure aborts the
run with an error and no output, and an `ok` result can only arise
after extraction, fetch, parse and merge have all succeeded (or after
the empty-set short circuit). -/
theorem c5_failure_isolation :
    (∀ (fp : Except String ByteData) (pp : ByteData → Option DestDoc)
        (fs : String → Except String ByteData) (ps : ByteData → Option SrcDoc)
        (pdf : ByteData) (doc : DestDoc) (e : String),
      fp = Except.ok pdf → pp pdf = some doc →
      ¬ extract_exercise_numbers doc.text = [] →
      fs (ccinpUri (extract_exercise_numbers doc.text)) = Except.error e →
      generate_fat_pdf fp pp fs ps =
        (Except.error e, [ccinpUri (extract_exercise_numbers doc.text)])) ∧
    (∀ (fp : Except String ByteData) (pp : ByteData → Option DestDoc)
        (fs : String → Except String ByteData) (ps : ByteData → Option SrcDoc)
        (pdf : ByteData) (doc : DestDoc) (bs : ByteData),
      fp = Except.ok pdf → pp pdf = some doc →
      ¬ extract_exercise_numbers doc.text = [] →
      fs (ccinpUri (extract_exercise_numbers doc.text)) = Except.ok bs →
      ps bs = none →
      ∃ msg, (generate_fat_pdf fp pp fs ps).1 = Except.error msg) ∧
    (∀ (fp : Except String ByteData) (pp : ByteData → Option DestDoc)
        (fs : String → Except String ByteData) (ps : ByteData → Option SrcDoc)
        (d : DestDoc),
      (generate_fat_pdf fp pp fs ps).1 = Except.ok d →
      ∃ pdf doc, fp = Except.ok pdf ∧ pp pdf = some doc ∧
        ((extract_exercise_numbers doc.text = [] ∧ d = doc) ∨
          ∃ bs sdoc, fs (ccinpUri (extract_exercise_numbers doc.text)) = Except.ok bs ∧
            ps bs = some sdoc ∧ merge_pdf_document doc sdoc = some d)) := by
  refine ⟨?_, ?_, ?_⟩
  · intro fp pp fs ps pdf doc e hfp hpp hne hfs
    subst hfp
    simp [generate_fat_pdf, hpp, hne, hfs]
  · intro fp pp fs ps pdf doc bs hfp hpp hne hfs hps
    subst hfp
    simp [generate_fat_pdf, hpp, hne, hfs, hps]
  · intro fp pp fs ps d h
    cases fp with
    | error e => simp [generate_fat_pdf] at h
    | ok pdf =>
      cases hpp : pp pdf with
      | none => simp [generate_fat_pdf, hpp] at h
      | some doc =>
        refine ⟨pdf, doc, rfl, hpp, ?_⟩
        by_cases hne : extract_exercise_numbers doc.text = []
        · simp [generate_fat_pdf, hpp, hne] at h
          exact Or.inl ⟨hne, h.symm⟩
        · cases hfs : fs (ccinpUri (extract_exercise_numbers doc.text)) with
          | error e => simp [generate_fat_pdf, hpp, hne, hfs] at h
          | ok bs =>
            cases hps : ps bs with
            | none => simp [generate_fat_pdf, hpp, hne, hfs, hps] at h
            | some sdoc =>
              cases hm : merge_pdf_document doc sdoc with
              | none => simp [generate_fat_pdf, hpp, hne, hfs, hps, hm] at h
              | some merged =>
                simp [generate_fat_pdf, hpp, hne, hfs, hps, hm] at h
                exact Or.inr ⟨bs, sdoc, rfl, hps, by rw [hm, h]⟩

/-- Witness for `c5_failure_isolation`: a concrete run whose secondary
fetch fails yields exactly that error and produces no output document. -/
theorem c5_failure_isolation_witness :
    generate_fat_pdf (Except.ok [])
      (fun _ => some ⟨[], [], [[[("CCINP 12").data]]]⟩)
      (fun _ => Except.error ("boom")) (fun _ => none) =
      (Except.error ("boom"), [ccinpUri [12]]) := by
  have h := c5_failure_isolation.1 (Except.ok [])
    (fun _ => some ⟨[], [], [[[("CCINP 12").data]]]⟩)
    (fun _ => Except.error ("boom")) (fun _ => none) []
    ⟨[], [], [[[("CCINP 12").data]]]⟩ ("boom") rfl rfl (by decide) rfl
  simpa using h

end ColleContent
